import Mathlib

/-!
Verification of the Sub-bot channel indexing and deduplication pipeline.

This file gives a shallow embedding of the indexing core of the repository:
the filename metadata extractor (`utils.py`: `Utils.clean_filename`,
`Utils.extract_year`, `Utils.extract_quality`, `Utils.get_file_extension`,
`Utils.extract_movie_info`), the catalog operations of `database.py`
(`add_file`, `get_file_by_clean_title`, `update_file`, `delete_file`,
`find_duplicates`), and the indexer of `indexer.py`
(`ChannelIndexer.process_message`, `ChannelIndexer.index_channel_history`,
`ChannelIndexer.is_subtitle_file`, `ChannelIndexer.clean_database`).

Strings are modelled as `List Char`.  The Python regular-expression
substitutions of `Config.CLEAN_PATTERNS` are embedded as explicit
character-level scanners with the exact semantics of `re.sub` for each
concrete pattern (leftmost match, scanning resumes after each match).
Python's `\w`, `\s` and `str.lower` are modelled at ASCII level (they agree
with Python on all ASCII inputs, which is the alphabet of every concrete
input used below).
-/

namespace SubBot

/-- ASCII model of the regex character class `\w` (Python default is
Unicode-aware; it agrees with this on ASCII). -/
def isWordChar (c : Char) : Bool := c.isAlphanum || c = '_'

/-- ASCII model of the regex class `\s` and of the character set removed by
Python `str.strip()`. -/
def isSpaceChar (c : Char) : Bool :=
  c = ' ' || c = '\t' || c = '\n' || c = '\x0d' || c = '\x0b' || c = '\x0c'

/-- `re.sub(r'@\w+', '', s)`: delete each `@` followed by a maximal nonempty
run of word characters.  The `Bool` is true while inside a word run that is
being deleted. -/
def subMenAux : Bool → List Char → List Char
  | _, [] => []
  | true, c :: rest =>
      if isWordChar c then subMenAux true rest
      else if c = '@' then
        match rest with
        | d :: _ => if isWordChar d then subMenAux true rest else '@' :: subMenAux false rest
        | [] => ['@']
      else c :: subMenAux false rest
  | false, c :: rest =>
      if c = '@' then
        match rest with
        | d :: _ => if isWordChar d then subMenAux true rest else '@' :: subMenAux false rest
        | [] => ['@']
      else c :: subMenAux false rest

/-- Scanner mode for the fixed-literal substitutions: `norm` is ordinary
scanning, `del n` deletes the current character and the next `n` silently
(the tail of an already-recognised literal), `run` deletes the current
maximal character run of the match. -/
inductive ScanMode where
  | norm
  | del (n : Nat)
  | run
deriving DecidableEq, Repr

/-- `re.sub(r't\.me/\w+', '', s)`: delete each literal `t.me/` followed by a
maximal nonempty word-character run.  A match is committed only after the
lookahead sees the whole literal plus one word character.  In `run` mode a
new match cannot start (it would need the word character `t`, which would
have extended the run), so emitting the terminating non-word character and
returning to `norm` is exact. -/
def subTmeAux : ScanMode → List Char → List Char
  | _, [] => []
  | .del (n+1), _ :: rest => subTmeAux (.del n) rest
  | .del 0, _ :: rest => subTmeAux .run rest
  | .run, c :: rest => if isWordChar c then subTmeAux .run rest else c :: subTmeAux .norm rest
  | .norm, 't' :: rest =>
      match rest with
      | '.' :: 'm' :: 'e' :: '/' :: d :: _ =>
          if isWordChar d then subTmeAux (.del 3) rest
          else 't' :: subTmeAux .norm rest
      | _ => 't' :: subTmeAux .norm rest
  | .norm, c :: rest => c :: subTmeAux .norm rest

/-- `re.sub(r'https?://\S+', '', s)`: delete each `http://` or `https://`
followed by a maximal nonempty run of non-space characters.  In `run` mode
a new match cannot start (it would need the non-space `h`, which the `\S+`
run would have consumed), so emitting the terminating space character and
returning to `norm` is exact. -/
def subUrlAux : ScanMode → List Char → List Char
  | _, [] => []
  | .del (n+1), _ :: rest => subUrlAux (.del n) rest
  | .del 0, _ :: rest => subUrlAux .run rest
  | .run, c :: rest => if isSpaceChar c then c :: subUrlAux .norm rest else subUrlAux .run rest
  | .norm, 'h' :: rest =>
      match rest with
      | 't' :: 't' :: 'p' :: 's' :: ':' :: '/' :: '/' :: d :: _ =>
          if isSpaceChar d then 'h' :: subUrlAux .norm rest else subUrlAux (.del 6) rest
      | 't' :: 't' :: 'p' :: ':' :: '/' :: '/' :: d :: _ =>
          if isSpaceChar d then 'h' :: subUrlAux .norm rest else subUrlAux (.del 5) rest
      | _ => 'h' :: subUrlAux .norm rest
  | .norm, c :: rest => c :: subUrlAux .norm rest

/-- `re.sub(r'\[.*?\]', '', s)` and `re.sub(r'\(.*?\)', '', s)` (with `ob`
the opening and `cb` the closing bracket): lazy match, `.` does not cross a
newline.  While a potential match is open the consumed characters are kept
(reversed) in the pending accumulator; the first closing bracket discards
them, a newline or the end of input flushes them unchanged.  A flushed
region cannot contain the start of another match, because any opening
bracket inside it has no closing bracket before the same newline/end. -/
def subBrkAux (ob cb : Char) : Option (List Char) → List Char → List Char
  | none, [] => []
  | some pend, [] => pend.reverse
  | none, c :: rest =>
      if c = ob then subBrkAux ob cb (some [c]) rest
      else c :: subBrkAux ob cb none rest
  | some pend, c :: rest =>
      if c = cb then subBrkAux ob cb none rest
      else if c = '\n' then pend.reverse ++ c :: subBrkAux ob cb none rest
      else subBrkAux ob cb (some (c :: pend)) rest

/-- `re.sub(r'\s+', ' ', s)`: collapse each maximal whitespace run to one
space. -/
def collapseWs : List Char → List Char
  | [] => []
  | [c] => if isSpaceChar c then [' '] else [c]
  | a :: b :: rest =>
      if isSpaceChar a then
        if isSpaceChar b then collapseWs (b :: rest)
        else ' ' :: collapseWs (b :: rest)
      else a :: collapseWs (b :: rest)

/-- Python `str.strip()`. -/
def pyStrip (l : List Char) : List Char :=
  ((l.dropWhile isSpaceChar).reverse.dropWhile isSpaceChar).reverse

/-- The last `n` characters of `l` (all of `l` when it is shorter).
Python `s.endswith(e)` is `lastChars |e| s = e`. -/
def lastChars (n : Nat) (l : List Char) : List Char := l.drop (l.length - n)

/-- Python `s.endswith(e)`. -/
def endsWithL (l e : List Char) : Bool := decide (lastChars e.length l = e)

/-- The subtitle extensions recognised by `ChannelIndexer.is_subtitle_file`
(indexer.py line 208). -/
def subtitle_extensions : List (List Char) :=
  [".srt".data, ".ass".data, ".sub".data, ".ssa".data, ".vtt".data]

/-- `ChannelIndexer.is_subtitle_file` (indexer.py lines 205-209):
`any(filename.lower().endswith(ext) for ext in subtitle_extensions)`. -/
def is_subtitle_file (filename : List Char) : Bool :=
  subtitle_extensions.any (fun e => endsWithL (filename.map Char.toLower) e)

/-- The extensions of the regex `\.(srt|ass|sub|ssa)$` used by
`Utils.clean_filename` (utils.py line 29) and `Utils.get_file_extension`
(utils.py line 226) — note `.vtt` is absent. -/
def strip_exts : List (List Char) :=
  [".srt".data, ".ass".data, ".sub".data, ".ssa".data]

/-- Python's `$` anchor matches at the end of the string or just before one
final newline.  Split `l` into the part the 4-character suffix match is
checked against and the trailing newline (if any). -/
def dollarSplit (l : List Char) : List Char × List Char :=
  if lastChars 1 l = ['\n'] then (l.dropLast, ['\n']) else (l, [])

/-- The matched (lowercased) extension of `\.(srt|ass|sub|ssa)$` with
`re.IGNORECASE`, including the dot, if the regex matches at the end. -/
def extSuffix (l : List Char) : Option (List Char) :=
  strip_exts.find? (fun e => endsWithL (l.map Char.toLower) e)

/-- `re.sub(r'\.(srt|ass|sub|ssa)$', '', s, flags=re.IGNORECASE)`
(utils.py line 29). -/
def stripSubExt (l : List Char) : List Char :=
  let (b, nl) := dollarSplit l
  match extSuffix b with
  | some _ => b.take (b.length - 4) ++ nl
  | none => l

/-- `Utils.get_file_extension` (utils.py lines 223-229): the captured group
of `\.(srt|ass|sub|ssa)$`, lowercased, else the fallback `"srt"`. -/
def get_file_extension (filename : List Char) : List Char :=
  let (b, _) := dollarSplit filename
  match extSuffix b with
  | some e => e.drop 1
  | none => "srt".data

/-- `Utils.clean_filename` (utils.py lines 10-31): apply the five
`Config.CLEAN_PATTERNS` substitutions in order (config.py lines 88-94),
collapse whitespace, strip, then drop a trailing subtitle extension. -/
def clean_filename (filename : List Char) : List Char :=
  let s1 := subMenAux false filename
  let s2 := subTmeAux .norm s1
  let s3 := subUrlAux .norm s2
  let s4 := subBrkAux '[' ']' none s3
  let s5 := subBrkAux '(' ')' none s4
  let s6 := pyStrip (collapseWs s5)
  stripSubExt s6

/-- The pattern/whitespace part of `Utils.clean_filename` (steps 1-2 of the
extractor), i.e. everything before the extension strip. -/
def cleanNoExt (filename : List Char) : List Char :=
  pyStrip (collapseWs (subBrkAux '(' ')' none (subBrkAux '[' ']' none
    (subUrlAux .norm (subTmeAux .norm (subMenAux false filename))))))

/-- Numeric value of an ASCII digit. -/
def digitVal (c : Char) : Nat := c.toNat - 48

/-- `Utils.extract_year` (utils.py lines 33-40): leftmost match of
`(19\d{2}|20\d{2})`. -/
def extract_year : List Char → Option Nat
  | [] => none
  | c1 :: rest =>
    match rest with
    | c2 :: c3 :: c4 :: _ =>
      if ((c1 == '1' && c2 == '9') || (c1 == '2' && c2 == '0'))
          && c3.isDigit && c4.isDigit then
        some (1000 * digitVal c1 + 100 * digitVal c2 + 10 * digitVal c3 + digitVal c4)
      else extract_year rest
    | _ => none

/-- The resolution alternatives of the first quality pattern
(utils.py line 46). -/
def qualityAlts1 : List (List Char) :=
  ["4K".data, "2160p".data, "1080p".data, "720p".data, "480p".data, "360p".data]

/-- The source alternatives of the second quality pattern
(utils.py line 47). -/
def qualityAlts2 : List (List Char) :=
  ["BluRay".data, "BRRip".data, "WEBRip".data, "HDRip".data, "DVDRip".data]

/-- The codec alternatives of the third quality pattern
(utils.py line 48). -/
def qualityAlts3 : List (List Char) :=
  ["HEVC".data, "x264".data, "x265".data, "H.264".data, "H.265".data]

/-- First alternative (in listed order) matching case-insensitively at the
head of `l`; returns the matched slice of `l` in its original casing, as
`match.group(1)` does. -/
def altAt (alts : List (List Char)) (l : List Char) : Option (List Char) :=
  alts.findSome? (fun a =>
    if (l.take a.length).map Char.toLower = a.map Char.toLower
    then some (l.take a.length) else none)

/-- `re.search` of an alternation: leftmost position, alternatives in
listed order. -/
def searchAlts (alts : List (List Char)) : List Char → Option (List Char)
  | [] => none
  | c :: rest =>
    match altAt alts (c :: rest) with
    | some m => some m
    | none => searchAlts alts rest

/-- `Utils.extract_quality` (utils.py lines 42-55): the three patterns are
tried in order; the first with a match wins. -/
def extract_quality (filename : List Char) : Option (List Char) :=
  match searchAlts qualityAlts1 filename with
  | some q => some q
  | none =>
    match searchAlts qualityAlts2 filename with
    | some q => some q
    | none => searchAlts qualityAlts3 filename

/-- The record returned by `Utils.extract_movie_info`
(utils.py lines 143-152). -/
structure MovieInfo where
  clean_title : List Char
  year : Option Nat
  quality : Option (List Char)
  original_name : List Char
deriving DecidableEq, Repr

/-- `Utils.extract_movie_info` (utils.py lines 143-152). -/
def extract_movie_info (filename : List Char) : MovieInfo :=
  { clean_title := clean_filename filename
    year := extract_year filename
    quality := extract_quality filename
    original_name := filename }

example : clean_filename "Movie.srt".data = "Movie".data := by decide
example : clean_filename "@noise.srt".data = [] := by decide
example : clean_filename "https://a.vtt".data = [] := by decide
example : clean_filename "Movie [Group] (2021) @chan 1080p.srt".data
    = "Movie 1080p".data := by decide
example : extract_year "Movie.Name.2019.1080p.srt".data = some 2019 := by decide
example : extract_year "Movie.Name.srt".data = none := by decide
example : extract_quality "Movie.2019.1080p.x264.srt".data = some "1080p".data := by decide
example : get_file_extension "a.vtt".data = "srt".data := by decide
example : get_file_extension "a.SRT".data = "srt".data := by decide
example : is_subtitle_file "a.VTT".data = true := by decide
example : is_subtitle_file "a.txt".data = false := by decide

/-! ## Data model

One catalog record, with the fields written by `ChannelIndexer.process_message`
(indexer.py lines 122-135) and by `Database.add_file` / `Database.update_file`
(database.py lines 130-142 and 167-177).  Timestamps (`datetime.now()`) are
abstracted as `Nat` clock values supplied by the caller; `updated_at` is
absent (`none`) until the first update, as in the stored documents. -/

structure FileRecord where
  file_id : List Char
  file_name : List Char
  file_size : Nat
  title : List Char
  clean_title : List Char
  year : Option Nat
  quality : Option (List Char)
  message_id : Nat
  channel_id : Int
  file_type : List Char
  caption : Option (List Char)
  added_at : Nat
  downloads : Nat
  last_downloaded : Option Nat
  updated_at : Option Nat
deriving DecidableEq, Repr

/-- The catalog (`files` collection), in insertion order. -/
abbrev Catalog := List FileRecord

/-! ## Catalog store operations (`database.py`)

MongoDB details carried over faithfully: the `files` collection has a unique
index on `file_id` (database.py line 32), so `insert_one` and an update that
sets `file_id` to a value held by a different document raise a duplicate-key
error, which `add_file` / `update_file` catch and turn into `False`;
`find_one`, `update_one` and `delete_one` act on the first match in natural
(insertion) order. -/

/-- `Database.get_file_by_clean_title` (database.py lines 163-165). -/
def get_file_by_clean_title (cat : Catalog) (clean_title : List Char) : Option FileRecord :=
  cat.find? (fun r => decide (r.clean_title = clean_title))

/-- `Database.add_file` (database.py lines 130-142): sets `added_at`,
`downloads`, `last_downloaded`, then inserts; a duplicate `file_id` makes
`insert_one` raise, caught and reported as `false`. -/
def add_file (cat : Catalog) (fd : FileRecord) (now : Nat) : Catalog × Bool :=
  let fd := { fd with added_at := now, downloads := 0, last_downloaded := none }
  if cat.any (fun r => decide (r.file_id = fd.file_id)) then (cat, false)
  else (cat ++ [fd], true)

/-- Replace the first record satisfying `p` by its image under `f`. -/
def updateFirst (p : FileRecord → Bool) (f : FileRecord → FileRecord) :
    Catalog → Catalog
  | [] => []
  | r :: rest => if p r then f r :: rest else r :: updateFirst p f rest

/-- `Database.update_file` applied to the patch built by
`ChannelIndexer.process_message` on the update path (indexer.py lines
111-116, database.py lines 167-177): `$set` the new `file_id`, `file_name`,
`file_size` and `updated_at` on the first record whose `file_id` is `fid`.
Setting `file_id` to a value held by a different record violates the unique
index; the error is caught and the catalog is left unchanged (the caller
ignores the returned boolean). -/
def update_file (cat : Catalog) (fid nfid nfname : List Char) (nsize now : Nat) : Catalog :=
  if cat.any (fun r => decide (r.file_id = nfid ∧ r.file_id ≠ fid)) then cat
  else updateFirst (fun r => decide (r.file_id = fid))
    (fun r => { r with file_id := nfid, file_name := nfname,
                       file_size := nsize, updated_at := some now }) cat

/-- `Database.delete_file` (database.py lines 194-201): `delete_one` removes
the first record with the given `file_id`. -/
def delete_file : Catalog → List Char → Catalog
  | [], _ => []
  | r :: rest, fid => if r.file_id = fid then rest else r :: delete_file rest fid

/-- First occurrences of the keys of `l`, in order (`seen` accumulates keys
already produced).  Used to enumerate the `$group` keys of
`Database.find_duplicates`; MongoDB leaves the group order unspecified, the
model fixes first-occurrence order. -/
def ukAux (seen : List (List Char)) : List (List Char) → List (List Char)
  | [] => []
  | k :: rest => if k ∈ seen then ukAux seen rest else k :: ukAux (k :: seen) rest

/-- All records sharing the clean title `k`, in catalog order (the `$push
$$ROOT` list of one group). -/
def groupFor (cat : Catalog) (k : List Char) : List FileRecord :=
  cat.filter (fun r => decide (r.clean_title = k))

/-- `Database.find_duplicates` (database.py lines 207-223): the groups of
records sharing a `clean_title`, restricted to groups with more than one
member. -/
def find_duplicates (cat : Catalog) : List (List FileRecord) :=
  (ukAux [] (cat.map (·.clean_title))).filterMap (fun k =>
    if (groupFor cat k).length > 1 then some (groupFor cat k) else none)

/-! ## The indexer (`indexer.py`) -/

/-- A chat-platform document, as read by `process_message` (indexer.py lines
91-94).  Pyrogram's `file_name` is optional: when it is `None`,
`filename.lower()` inside `is_subtitle_file` raises `AttributeError`, which
the `except` of `process_message` turns into an `"error"` result. -/
structure PyDocument where
  file_name : Option (List Char)
  file_size : Nat
  file_id : List Char
deriving DecidableEq, Repr

/-- A chat-platform message, restricted to the attributes `process_message`
reads. -/
structure PyMessage where
  document : Option PyDocument
  id : Nat
  caption : Option (List Char)
deriving DecidableEq, Repr

/-- The `status` strings returned by `ChannelIndexer.process_message`. -/
inductive PStatus where
  | indexed
  | duplicate
  | skipped
  | updated
  | error
deriving DecidableEq, Repr

/-- `ChannelIndexer.process_message` (indexer.py lines 82-148): classify the
message, extract metadata, consult the catalog by (unlowered) clean title
and insert / update / skip.  `now` abstracts `datetime.now()`;
`source_channel` is `Config.SOURCE_CHANNEL_ID`. -/
def process_message (cat : Catalog) (m : PyMessage) (now : Nat)
    (source_channel : Int) : Catalog × PStatus :=
  match m.document with
  | none => (cat, .skipped)
  | some doc =>
    match doc.file_name with
    | none => (cat, .error)
    | some file_name =>
      if ¬ is_subtitle_file file_name then (cat, .skipped)
      else
        let movie_info := extract_movie_info file_name
        let clean_title := movie_info.clean_title
        match get_file_by_clean_title cat clean_title with
        | some existing_file =>
          if doc.file_size > existing_file.file_size then
            (update_file cat existing_file.file_id doc.file_id file_name
              doc.file_size now, .updated)
          else (cat, .duplicate)
        | none =>
          let file_data : FileRecord :=
            { file_id := doc.file_id
              file_name := file_name
              file_size := doc.file_size
              title := clean_title
              clean_title := clean_title.map Char.toLower
              year := movie_info.year
              quality := movie_info.quality
              message_id := m.id
              channel_id := source_channel
              file_type := get_file_extension file_name
              caption := match m.caption with
                         | some c => if c = [] then none else some c
                         | none => none
              added_at := 0
              downloads := 0
              last_downloaded := none
              updated_at := none }
          match add_file cat file_data now with
          | (cat2, true) => (cat2, .indexed)
          | (cat2, false) => (cat2, .error)

/-- Terminal status of one `index_channel_history` run. -/
inductive RunStatus where
  | completed
  | error
  | already_running
deriving DecidableEq, Repr

/-- The statistics dictionary of `index_channel_history` (indexer.py lines
30-37): wall-clock fields are abstracted away. -/
structure RunStats where
  total_messages : Nat
  indexed_files : Nat
  skipped_files : Nat
  duplicates : Nat
  errors : Nat
  status : RunStatus
  error_message : Option (List Char)
deriving DecidableEq, Repr

/-- The zero-initialised statistics of a fresh run. -/
def initStats : RunStats :=
  { total_messages := 0, indexed_files := 0, skipped_files := 0,
    duplicates := 0, errors := 0, status := .completed, error_message := none }

/-- One iteration of the history loop (indexer.py lines 42-64): count the
message, and if it carries a document dispatch on the `process_message`
status — note the `else` branch (line 55-56) catches both `"error"` and
`"updated"`. -/
def scanStep (now : Nat) (source_channel : Int)
    (acc : Catalog × RunStats) (m : PyMessage) : Catalog × RunStats :=
  let cat := acc.1
  let s := { acc.2 with total_messages := acc.2.total_messages + 1 }
  match m.document with
  | none => (cat, s)
  | some _ =>
    let r := process_message cat m now source_channel
    match r.2 with
    | .indexed => (r.1, { s with indexed_files := s.indexed_files + 1 })
    | .duplicate => (r.1, { s with duplicates := s.duplicates + 1 })
    | .skipped => (r.1, { s with skipped_files := s.skipped_files + 1 })
    | .updated => (r.1, { s with errors := s.errors + 1 })
    | .error => (r.1, { s with errors := s.errors + 1 })

/-- The channel-history iteration: either it yields all messages, or it
raises after yielding a prefix (`get_chat_history` failing mid-iteration),
which is fatal to the run (indexer.py lines 72-75). -/
inductive ChannelIter where
  | ok (msgs : List PyMessage)
  | failAfter (msgs : List PyMessage) (emsg : List Char)
deriving DecidableEq, Repr

/-- `ChannelIndexer.index_channel_history` (indexer.py lines 20-80) acting
on the in-memory `indexing` flag and the catalog.  Returns the new flag, the
new catalog and the run statistics.  The `finally` block (line 77-78) clears
the flag on both the completed and the failed path; the early
`already_running` return (lines 25-27) bypasses `try`/`finally` and leaves
the flag set. -/
def index_channel_history (indexing : Bool) (cat : Catalog)
    (iter : ChannelIter) (now : Nat) (source_channel : Int) :
    Bool × Catalog × RunStats :=
  if indexing then
    (indexing, cat, { initStats with status := .already_running })
  else
    match iter with
    | .ok msgs =>
      let r := msgs.foldl (scanStep now source_channel) (cat, initStats)
      (false, r.1, { r.2 with status := .completed })
    | .failAfter msgs emsg =>
      let r := msgs.foldl (scanStep now source_channel) (cat, initStats)
      (false, r.1, { r.2 with status := .error, error_message := some emsg })

/-! ## The batch cleaner (`ChannelIndexer.clean_database`) -/

/-- Python tuple comparison `key(x) > key(best)` for the ranking key
`(file_size, added_at)` used at indexer.py lines 286-289. -/
def keyGt (x b : FileRecord) : Bool :=
  decide (b.file_size < x.file_size ∨
    (x.file_size = b.file_size ∧ b.added_at < x.added_at))

/-- One comparison step of Python `max`: the candidate `y` replaces the
current best `b` only when its key is strictly greater. -/
def pyStep (b y : FileRecord) : FileRecord := if keyGt y b then y else b

/-- Python `max(files, key=...)`: the first element of the list whose key no
later element strictly exceeds (`max` keeps the earliest maximal element). -/
def pyMax : List FileRecord → Option FileRecord
  | [] => none
  | x :: rest => some (rest.foldl pyStep x)

/-- The body of the outer loop of `clean_database` (indexer.py lines
282-295): pick the best record of the group, delete every member with a
different `file_id`, counting each deletion. -/
def cleanStep (st : Catalog × Nat) (g : List FileRecord) : Catalog × Nat :=
  match pyMax g with
  | none => st
  | some best =>
    g.foldl (fun s f =>
      if f.file_id ≠ best.file_id then (delete_file s.1 f.file_id, s.2 + 1)
      else s) st

/-- `ChannelIndexer.clean_database` (indexer.py lines 268-303): returns the
new catalog and the `removed_duplicates` counter (the `removed_invalid` and
`updated` counters are always 0 and are omitted). -/
def clean_database (cat : Catalog) : Catalog × Nat :=
  (find_duplicates cat).foldl cleanStep (cat, 0)

/-! ## Generic list lemmas -/

theorem nodup_map_inj {α β : Type} {f : α → β} {l : List α} {x y : α}
    (h : (l.map f).Nodup) (hx : x ∈ l) (hy : y ∈ l) (hfe : f x = f y) : x = y := by
  induction l with
  | nil => exact absurd hx (List.not_mem_nil x)
  | cons a t ih =>
    rw [List.map_cons, List.nodup_cons] at h
    rcases List.mem_cons.mp hx with rfl | hx'
    · rcases List.mem_cons.mp hy with rfl | hy'
      · rfl
      · refine absurd (List.mem_map_of_mem f hy') ?_
        rw [← hfe]
        exact h.1
    · rcases List.mem_cons.mp hy with rfl | hy'
      · refine absurd (List.mem_map_of_mem f hx') ?_
        rw [hfe]
        exact h.1
      · exact ih h.2 hx' hy'

theorem one_lt_length_of_two_mem {α : Type} {l : List α} {x y : α}
    (hx : x ∈ l) (hy : y ∈ l) (hne : x ≠ y) : 1 < l.length := by
  cases l with
  | nil => simp at hx
  | cons a t =>
    cases t with
    | nil =>
      simp only [List.mem_singleton] at hx hy
      exact absurd (hx.trans hy.symm) hne
    | cons b t2 => simp [List.length]

/-! ## Batch-cleaner characterization -/

/-- The survivor predicate of one `clean_database` pass: a record survives
iff its `file_id` is the `file_id` of the Python-`max` best record of its
clean-title group. -/
def survives (cat : Catalog) (r : FileRecord) : Bool :=
  match pyMax (groupFor cat r.clean_title) with
  | some b => decide (r.file_id = b.file_id)
  | none => true

theorem pyStep_of_gt {b y : FileRecord} (h : keyGt y b = true) : pyStep b y = y := by
  simp [pyStep, h]

theorem pyStep_of_le {b y : FileRecord} (h : keyGt y b = false) : pyStep b y = b := by
  simp [pyStep, h]

theorem pyMax_foldl_mem {l : List FileRecord} {x : FileRecord} :
    l.foldl pyStep x ∈ x :: l := by
  induction l generalizing x with
  | nil => simp
  | cons z rest ih =>
    rw [List.foldl_cons]
    cases h : keyGt z x with
    | true =>
      rw [pyStep_of_gt h]
      exact List.mem_cons_of_mem _ (ih (x := z))
    | false =>
      rw [pyStep_of_le h]
      rcases List.mem_cons.mp (ih (x := x)) with h2 | h2
      · rw [h2]
        exact List.mem_cons_self _ _
      · exact List.mem_cons_of_mem _ (List.mem_cons_of_mem _ h2)

theorem pyMax_mem {l : List FileRecord} {b : FileRecord} (h : pyMax l = some b) :
    b ∈ l := by
  cases l with
  | nil => simp [pyMax] at h
  | cons x rest =>
    simp only [pyMax, Option.some.injEq] at h
    exact h ▸ pyMax_foldl_mem

theorem keyGt_trans_le {x b r : FileRecord} (h1 : keyGt x b = false)
    (h2 : keyGt b r = false) : keyGt x r = false := by
  simp only [keyGt, decide_eq_false_iff_not, not_or, not_and, not_lt] at *
  omega

theorem keyGt_lt_le {x b r : FileRecord} (h1 : keyGt b x = true)
    (h2 : keyGt b r = false) : keyGt x r = false := by
  simp only [keyGt, decide_eq_true_eq, decide_eq_false_iff_not, not_or, not_and,
    not_lt] at *
  omega

theorem pyMax_foldl_ge {l : List FileRecord} {x : FileRecord} :
    keyGt x (l.foldl pyStep x) = false ∧
    ∀ y ∈ l, keyGt y (l.foldl pyStep x) = false := by
  induction l generalizing x with
  | nil => simp [keyGt]
  | cons z rest ih =>
    rw [List.foldl_cons]
    cases h : keyGt z x with
    | true =>
      rw [pyStep_of_gt h]
      refine ⟨keyGt_lt_le h (ih (x := z)).1, ?_⟩
      intro y hy
      rcases List.mem_cons.mp hy with h2 | hy'
      · rw [h2]
        exact (ih (x := z)).1
      · exact (ih (x := z)).2 y hy'
    | false =>
      rw [pyStep_of_le h]
      refine ⟨(ih (x := x)).1, ?_⟩
      intro y hy
      rcases List.mem_cons.mp hy with h2 | hy'
      · rw [h2]
        exact keyGt_trans_le h (ih (x := x)).1
      · exact (ih (x := x)).2 y hy'

theorem pyMax_maximal {l : List FileRecord} {b : FileRecord} (h : pyMax l = some b) :
    ∀ x ∈ l, keyGt x b = false := by
  cases l with
  | nil => simp [pyMax] at h
  | cons z rest =>
    simp only [pyMax, Option.some.injEq] at h
    intro x hx
    rcases List.mem_cons.mp hx with rfl | hx'
    · exact h ▸ pyMax_foldl_ge.1
    · exact h ▸ pyMax_foldl_ge.2 x hx'

/-- The `file_id`s `clean_database` deletes for one duplicate group: every
member whose `file_id` differs from the best record's. -/
def delList (g : List FileRecord) : List (List Char) :=
  match pyMax g with
  | some best => (g.filter (fun f => decide (f.file_id ≠ best.file_id))).map (·.file_id)
  | none => []

theorem delete_file_eq_filter {cat : Catalog} {fid : List Char}
    (h : (cat.map (·.file_id)).Nodup) :
    delete_file cat fid = cat.filter (fun r => decide (r.file_id ≠ fid)) := by
  induction cat with
  | nil => rfl
  | cons r rest ih =>
    rw [List.map_cons, List.nodup_cons] at h
    by_cases hr : r.file_id = fid
    · have hrest : rest.filter (fun r => decide (r.file_id ≠ fid)) = rest := by
        rw [List.filter_eq_self]
        intro x hx
        simp only [decide_eq_true_eq, ne_eq]
        intro hxe
        have hmem : x.file_id ∈ rest.map (fun y => y.file_id) :=
          List.mem_map_of_mem (fun y => y.file_id) hx
        rw [hxe, ← hr] at hmem
        exact h.1 hmem
      rw [delete_file, if_pos hr, List.filter_cons, if_neg (by simp [hr]), hrest]
    · rw [delete_file, if_neg hr, List.filter_cons,
        if_pos (by simp [hr] : decide (r.file_id ≠ fid) = true), ih h.2]

theorem nodup_fid_filter {cat : Catalog} {p : FileRecord → Bool}
    (h : (cat.map (·.file_id)).Nodup) :
    ((cat.filter p).map (·.file_id)).Nodup :=
  h.sublist (List.Sublist.map _ (List.filter_sublist cat))

theorem foldl_delete_eq_filter {cat : Catalog} (ids : List (List Char))
    (h : (cat.map (·.file_id)).Nodup) :
    ids.foldl delete_file cat = cat.filter (fun r => decide (r.file_id ∉ ids)) := by
  induction ids generalizing cat with
  | nil =>
    rw [List.foldl_nil]
    symm
    rw [List.filter_eq_self]
    intro x _
    simp
  | cons i ids' ih =>
    rw [List.foldl_cons, delete_file_eq_filter h,
      ih (nodup_fid_filter h), List.filter_filter]
    apply List.filter_congr
    intro x _
    by_cases h1 : x.file_id = i <;> by_cases h2 : x.file_id ∈ ids' <;>
      simp [h1, h2]

theorem foldl_del_eq (best : FileRecord) (g : List FileRecord) (st : Catalog × Nat) :
    g.foldl (fun s f =>
        if f.file_id ≠ best.file_id then (delete_file s.1 f.file_id, s.2 + 1) else s) st
      = (((g.filter (fun f => decide (f.file_id ≠ best.file_id))).map
            (·.file_id)).foldl delete_file st.1,
         st.2 + (g.filter (fun f => decide (f.file_id ≠ best.file_id))).length) := by
  induction g generalizing st with
  | nil => rfl
  | cons f g' ih =>
    rw [List.foldl_cons, List.filter_cons]
    by_cases hf : f.file_id = best.file_id
    · rw [if_neg (by simp [hf]), if_neg (by simp [hf])]
      exact ih st
    · rw [if_pos (by simp [hf] : decide (f.file_id ≠ best.file_id) = true), if_pos hf,
        ih (delete_file st.1 f.file_id, st.2 + 1)]
      simp only [List.map_cons, List.foldl_cons, List.length_cons, Prod.mk.injEq,
        true_and]
      omega

theorem cleanStep_eq (st : Catalog × Nat) (g : List FileRecord) :
    cleanStep st g = ((delList g).foldl delete_file st.1, st.2 + (delList g).length) := by
  cases hg : pyMax g with
  | none => simp [cleanStep, delList, hg]
  | some best =>
    simp only [cleanStep, delList, hg]
    rw [foldl_del_eq best g st, List.length_map]

theorem foldl_cleanStep_eq (gs : List (List FileRecord)) (st : Catalog × Nat) :
    gs.foldl cleanStep st
      = ((gs.flatMap delList).foldl delete_file st.1, st.2 + (gs.flatMap delList).length) := by
  induction gs generalizing st with
  | nil => simp
  | cons g gs' ih =>
    rw [List.foldl_cons, cleanStep_eq, ih, List.flatMap_cons, List.foldl_append,
      List.length_append]
    simp only [Prod.mk.injEq, true_and]
    omega

theorem mem_ukAux {seen l : List (List Char)} {k : List Char} :
    k ∈ ukAux seen l ↔ k ∈ l ∧ k ∉ seen := by
  induction l generalizing seen with
  | nil => simp [ukAux]
  | cons a t ih =>
    rw [ukAux]
    by_cases ha : a ∈ seen
    · rw [if_pos ha, ih]
      constructor
      · rintro ⟨hk, hks⟩
        exact ⟨List.mem_cons_of_mem _ hk, hks⟩
      · rintro ⟨hk, hks⟩
        rcases List.mem_cons.mp hk with rfl | hk'
        · exact absurd ha hks
        · exact ⟨hk', hks⟩
    · rw [if_neg ha, List.mem_cons]
      constructor
      · rintro (rfl | hmem)
        · exact ⟨List.mem_cons_self _ _, ha⟩
        · rcases ih.mp hmem with ⟨hk, hks⟩
          exact ⟨List.mem_cons_of_mem _ hk,
            fun hs => hks (List.mem_cons_of_mem _ hs)⟩
      · rintro ⟨hk, hks⟩
        by_cases hka : k = a
        · exact Or.inl hka
        · right
          rw [ih]
          refine ⟨?_, ?_⟩
          · rcases List.mem_cons.mp hk with h' | h'
            · exact absurd h' hka
            · exact h'
          · intro hs
            rcases List.mem_cons.mp hs with h' | h'
            · exact hka h'
            · exact hks h'

theorem mem_groupFor {cat : Catalog} {k : List Char} {r : FileRecord} :
    r ∈ groupFor cat k ↔ r ∈ cat ∧ r.clean_title = k := by
  simp [groupFor, List.mem_filter]

theorem mem_find_duplicates {cat : Catalog} {g : List FileRecord} :
    g ∈ find_duplicates cat ↔
      ∃ k, k ∈ cat.map (·.clean_title) ∧ g = groupFor cat k ∧
        1 < (groupFor cat k).length := by
  rw [find_duplicates, List.mem_filterMap]
  constructor
  · rintro ⟨k, hk, hf⟩
    rw [mem_ukAux] at hk
    by_cases hlen : (groupFor cat k).length > 1
    · rw [if_pos hlen, Option.some.injEq] at hf
      exact ⟨k, hk.1, hf.symm, hlen⟩
    · rw [if_neg hlen] at hf
      exact absurd hf (by simp)
  · rintro ⟨k, hk, rfl, hlen⟩
    exact ⟨k, mem_ukAux.mpr ⟨hk, List.not_mem_nil k⟩, by rw [if_pos hlen]⟩

/-- All `file_id`s one `clean_database` pass deletes. -/
def allDels (cat : Catalog) : List (List Char) :=
  (find_duplicates cat).flatMap delList

theorem survives_false_iff {cat : Catalog} {r : FileRecord} :
    survives cat r = false ↔
      ∃ b, pyMax (groupFor cat r.clean_title) = some b ∧ r.file_id ≠ b.file_id := by
  rw [survives]
  cases hb : pyMax (groupFor cat r.clean_title) with
  | none => simp
  | some b => simp

theorem mem_allDels_iff {cat : Catalog} {r : FileRecord}
    (h : (cat.map (·.file_id)).Nodup) (hr : r ∈ cat) :
    r.file_id ∈ allDels cat ↔ survives cat r = false := by
  constructor
  · intro hmem
    rw [allDels, List.mem_flatMap] at hmem
    obtain ⟨g, hg, hid⟩ := hmem
    obtain ⟨k, _, rfl, hlen⟩ := mem_find_duplicates.mp hg
    rw [delList] at hid
    cases hbest : pyMax (groupFor cat k) with
    | none => rw [hbest] at hid; exact absurd hid (List.not_mem_nil _)
    | some best =>
      rw [hbest] at hid
      obtain ⟨f, hf, hfid⟩ := List.mem_map.mp hid
      obtain ⟨hfg, hfne⟩ := List.mem_filter.mp hf
      have hfcat := (mem_groupFor.mp hfg).1
      have hfk := (mem_groupFor.mp hfg).2
      have hfr : f = r := nodup_map_inj h hfcat hr hfid
      rw [survives_false_iff]
      refine ⟨best, ?_, ?_⟩
      · rw [← hfr, hfk, hbest]
      · rw [← hfr]
        simpa using hfne
  · intro hsurv
    obtain ⟨b, hb, hne⟩ := survives_false_iff.mp hsurv
    have hbmem : b ∈ groupFor cat r.clean_title := pyMax_mem hb
    have hrmem : r ∈ groupFor cat r.clean_title := mem_groupFor.mpr ⟨hr, rfl⟩
    have hbr : r ≠ b := fun he => hne (he ▸ rfl)
    have hlen : 1 < (groupFor cat r.clean_title).length :=
      one_lt_length_of_two_mem hrmem hbmem hbr
    rw [allDels, List.mem_flatMap]
    refine ⟨groupFor cat r.clean_title, ?_, ?_⟩
    · exact mem_find_duplicates.mpr
        ⟨r.clean_title, List.mem_map_of_mem _ hr, rfl, hlen⟩
    · rw [delList, hb]
      exact List.mem_map_of_mem _
        (List.mem_filter.mpr ⟨hrmem, by simpa using hne⟩)

theorem clean_database_fst {cat : Catalog} (h : (cat.map (·.file_id)).Nodup) :
    (clean_database cat).1 = cat.filter (survives cat) := by
  rw [clean_database, foldl_cleanStep_eq]
  show (allDels cat).foldl delete_file cat = _
  rw [foldl_delete_eq_filter _ h]
  apply List.filter_congr
  intro r hr
  cases hsv : survives cat r with
  | false =>
    have hm := (mem_allDels_iff h hr).mpr hsv
    simp [hm]
  | true =>
    have hnm : r.file_id ∉ allDels cat := by
      intro hm
      have hfalse := (mem_allDels_iff h hr).mp hm
      rw [hsv] at hfalse
      exact absurd hfalse (by simp)
    simp [hnm]

theorem pyMax_of_mem {cat : Catalog} {r : FileRecord} (hr : r ∈ cat) :
    ∃ b, pyMax (groupFor cat r.clean_title) = some b := by
  have hne : r ∈ groupFor cat r.clean_title := mem_groupFor.mpr ⟨hr, rfl⟩
  cases hg : groupFor cat r.clean_title with
  | nil => rw [hg] at hne; exact absurd hne (List.not_mem_nil r)
  | cons a t => exact ⟨t.foldl pyStep a, rfl⟩

theorem survives_true_elim {cat : Catalog} {r : FileRecord} (hr : r ∈ cat)
    (hs : survives cat r = true) :
    ∃ b, pyMax (groupFor cat r.clean_title) = some b ∧ r.file_id = b.file_id := by
  obtain ⟨b, hb⟩ := pyMax_of_mem hr
  rw [survives, hb] at hs
  simp only [decide_eq_true_eq] at hs
  exact ⟨b, hb, hs⟩

theorem clean_database_nodup_ct {cat : Catalog}
    (h : (cat.map (·.file_id)).Nodup) :
    ((clean_database cat).1.map (·.clean_title)).Nodup := by
  rw [clean_database_fst h]
  apply List.Nodup.map_on ?_ ((List.Nodup.of_map _ h).filter _)
  intro x hx y hy hxy
  obtain ⟨hxc, hxs⟩ := List.mem_filter.mp hx
  obtain ⟨hyc, hys⟩ := List.mem_filter.mp hy
  obtain ⟨bx, hbx, hxe⟩ := survives_true_elim hxc hxs
  obtain ⟨by_, hby, hye⟩ := survives_true_elim hyc hys
  rw [hxy] at hbx
  rw [hbx] at hby
  have hbb : bx = by_ := by injection hby
  apply nodup_map_inj h hxc hyc
  rw [hxe, hye, hbb]

theorem groupFor_length_le (cat : Catalog) (k : List Char)
    (h : (cat.map (·.clean_title)).Nodup) : (groupFor cat k).length ≤ 1 := by
  induction cat with
  | nil => simp [groupFor]
  | cons r rest ih =>
    rw [List.map_cons, List.nodup_cons] at h
    rw [groupFor, List.filter_cons]
    by_cases hr : r.clean_title = k
    · rw [if_pos (by simp [hr])]
      have hnil : rest.filter (fun x => decide (x.clean_title = k)) = [] := by
        rw [List.filter_eq_nil_iff]
        intro x hx
        simp only [decide_eq_true_eq]
        intro hxk
        have : x.clean_title ∈ rest.map (fun y => y.clean_title) :=
          List.mem_map_of_mem (fun y => y.clean_title) hx
        rw [hxk, ← hr] at this
        exact h.1 this
      rw [show rest.filter (fun x => decide (x.clean_title = k)) = [] from hnil]
      simp
    · rw [if_neg (by simp [hr])]
      exact ih h.2

theorem find_duplicates_eq_nil {cat : Catalog}
    (h : (cat.map (·.clean_title)).Nodup) : find_duplicates cat = [] := by
  rw [find_duplicates]
  rw [List.filterMap_eq_nil_iff]
  intro k _
  have hle := groupFor_length_le cat k h
  rw [if_neg (by omega)]

theorem clean_database_zero_effect {cat : Catalog}
    (h : (cat.map (·.clean_title)).Nodup) : clean_database cat = (cat, 0) := by
  rw [clean_database, find_duplicates_eq_nil h]
  rfl

theorem clean_database_nodup_fid {cat : Catalog}
    (h : (cat.map (·.file_id)).Nodup) :
    ((clean_database cat).1.map (·.file_id)).Nodup := by
  rw [clean_database_fst h]
  exact nodup_fid_filter h

/-! ## Scanner lemmas -/

theorem scanStep_total (now : Nat) (ch : Int) (acc : Catalog × RunStats)
    (m : PyMessage) :
    (scanStep now ch acc m).2.total_messages = acc.2.total_messages + 1 := by
  obtain ⟨cat, s⟩ := acc
  cases hd : m.document with
  | none => simp [scanStep, hd]
  | some d =>
    simp only [scanStep, hd]
    cases hp : (process_message cat m now ch).2 <;> simp [hp]

theorem scanStep_error (now : Nat) (ch : Int) (cat : Catalog) (s : RunStats)
    (m : PyMessage) (d : PyDocument) (hd : m.document = some d)
    (he : (process_message cat m now ch).2 = PStatus.error) :
    scanStep now ch (cat, s) m
      = ((process_message cat m now ch).1,
         { s with total_messages := s.total_messages + 1,
                  errors := s.errors + 1 }) := by
  simp only [scanStep, hd, he]

theorem foldl_scan_total (now : Nat) (ch : Int) (msgs : List PyMessage) :
    ∀ (cat : Catalog) (s : RunStats),
      (msgs.foldl (scanStep now ch) (cat, s)).2.total_messages
        = s.total_messages + msgs.length := by
  induction msgs with
  | nil => intro cat s; simp
  | cons m rest ih =>
    intro cat s
    rw [List.foldl_cons]
    have h1 := scanStep_total now ch (cat, s) m
    rcases hstep : scanStep now ch (cat, s) m with ⟨cat', s'⟩
    rw [ih cat' s', List.length_cons]
    simp only [hstep] at h1
    omega

/-! ## Update decomposition lemmas -/

theorem mem_decomp_first {cat : Catalog} {ex : FileRecord}
    (h : (cat.map (·.file_id)).Nodup) (hex : ex ∈ cat) :
    ∃ l₁ l₂, cat = l₁ ++ ex :: l₂ ∧ ∀ x ∈ l₁, x.file_id ≠ ex.file_id := by
  obtain ⟨l₁, l₂, rfl⟩ := List.append_of_mem hex
  refine ⟨l₁, l₂, rfl, ?_⟩
  intro x hx hxe
  have hx_cat : x ∈ l₁ ++ ex :: l₂ := List.mem_append_left _ hx
  have hxex : x = ex := nodup_map_inj h hx_cat hex hxe
  subst hxex
  have hcat := List.Nodup.of_map _ h
  obtain ⟨-, -, hdisj⟩ := List.nodup_append.mp hcat
  exact hdisj hx (List.mem_cons_self _ _)

theorem updateFirst_append {l₁ l₂ : Catalog} {ex : FileRecord}
    {p : FileRecord → Bool} {f : FileRecord → FileRecord}
    (h1 : ∀ x ∈ l₁, p x = false) (h2 : p ex = true) :
    updateFirst p f (l₁ ++ ex :: l₂) = l₁ ++ f ex :: l₂ := by
  induction l₁ with
  | nil => simp [updateFirst, h2]
  | cons a t ih =>
    rw [List.cons_append, updateFirst,
      if_neg (by rw [h1 a (List.mem_cons_self a t)]; simp), List.cons_append,
      ih (fun x hx => h1 x (List.mem_cons_of_mem a hx))]

/-! ## Suffix lemmas for the `.vtt` analysis -/

theorem lastChars_lastChars {m n : Nat} (h : m ≤ n) (l : List Char) :
    lastChars m (lastChars n l) = lastChars m l := by
  rw [lastChars, lastChars, lastChars, List.length_drop, List.drop_drop]
  congr 1
  omega

theorem lastChars_map (g : Char → Char) (n : Nat) (l : List Char) :
    lastChars n (l.map g) = (lastChars n l).map g := by
  rw [lastChars, lastChars, List.length_map, List.map_drop]

theorem endsWithL_ne {l e1 e2 : List Char} (h : endsWithL l e1 = true)
    (hlen : e1.length = e2.length) (hne : e1 ≠ e2) : endsWithL l e2 = false := by
  rw [endsWithL, decide_eq_true_eq] at h
  rw [endsWithL, decide_eq_false_iff_not]
  intro h2
  rw [← hlen] at h2
  exact hne (h.symm.trans h2)

theorem single_map_toLower {l : List Char} {c : Char}
    (h : l.map Char.toLower = [c]) : ∃ a, l = [a] ∧ Char.toLower a = c := by
  cases l with
  | nil => simp at h
  | cons a t =>
    cases t with
    | nil =>
      simp only [List.map_cons, List.map_nil, List.cons.injEq, and_true] at h
      exact ⟨a, rfl, h⟩
    | cons b t2 => simp at h

theorem not_newline_of_endsWith_vtt {f : List Char}
    (h : endsWithL (f.map Char.toLower) ".vtt".data = true) :
    lastChars 1 f ≠ ['\n'] := by
  rw [endsWithL, decide_eq_true_eq] at h
  have h4 : lastChars 4 (f.map Char.toLower) = ".vtt".data := h
  have h1 : lastChars 1 (f.map Char.toLower) = ['t'] := by
    rw [← lastChars_lastChars (by omega : (1 : Nat) ≤ 4) (f.map Char.toLower), h4]
    decide
  rw [lastChars_map] at h1
  obtain ⟨a, ha, hla⟩ := single_map_toLower h1
  rw [ha]
  intro hcon
  have haeq : a = '\n' := by injection hcon
  rw [haeq] at hla
  exact absurd hla (by decide)

theorem extSuffix_vtt {l : List Char}
    (h : endsWithL (l.map Char.toLower) ".vtt".data = true) :
    extSuffix l = none := by
  rw [extSuffix, List.find?_eq_none]
  intro e he
  have hfalse : endsWithL (l.map Char.toLower) e = false := by
    simp only [strip_exts, List.mem_cons, List.not_mem_nil, or_false] at he
    rcases he with rfl | rfl | rfl | rfl
    · exact endsWithL_ne h (by decide) (by decide)
    · exact endsWithL_ne h (by decide) (by decide)
    · exact endsWithL_ne h (by decide) (by decide)
    · exact endsWithL_ne h (by decide) (by decide)
  simp [hfalse]

theorem dollarSplit_vtt {l : List Char}
    (h : endsWithL (l.map Char.toLower) ".vtt".data = true) :
    dollarSplit l = (l, []) := by
  rw [dollarSplit, if_neg (not_newline_of_endsWith_vtt h)]

theorem stripSubExt_vtt {l : List Char}
    (h : endsWithL (l.map Char.toLower) ".vtt".data = true) :
    stripSubExt l = l := by
  rw [stripSubExt, dollarSplit_vtt h]
  simp only [extSuffix_vtt h]

theorem get_file_extension_vtt {l : List Char}
    (h : endsWithL (l.map Char.toLower) ".vtt".data = true) :
    get_file_extension l = "srt".data := by
  rw [get_file_extension, dollarSplit_vtt h]
  simp only [extSuffix_vtt h]

theorem is_subtitle_file_vtt {l : List Char}
    (h : endsWithL (l.map Char.toLower) ".vtt".data = true) :
    is_subtitle_file l = true := by
  rw [is_subtitle_file, List.any_eq_true]
  exact ⟨".vtt".data, by simp [subtitle_extensions], h⟩

theorem clean_filename_eq_stripSubExt (f : List Char) :
    clean_filename f = stripSubExt (cleanNoExt f) := rfl

/-! ## `process_message` branch lemmas -/

/-- The catalog document built by the insert path of `process_message`
(the `file_data` dict of indexer.py lines 122-135, with the fields that
`Database.add_file` sets on insertion: `added_at`, `downloads`,
`last_downloaded`). -/
def inserted_file_data (doc : PyDocument) (f : List Char) (m : PyMessage)
    (now : Nat) (ch : Int) : FileRecord :=
  { file_id := doc.file_id, file_name := f,
    file_size := doc.file_size,
    title := clean_filename f,
    clean_title := (clean_filename f).map Char.toLower,
    year := extract_year f, quality := extract_quality f,
    message_id := m.id, channel_id := ch,
    file_type := get_file_extension f,
    caption := match m.caption with
               | some c => if c = [] then none else some c
               | none => none,
    added_at := now, downloads := 0, last_downloaded := none,
    updated_at := none }

theorem process_message_insert_eq {cat : Catalog} {m : PyMessage} {doc : PyDocument}
    {f : List Char} {now : Nat} {ch : Int}
    (hd : m.document = some doc) (hf : doc.file_name = some f)
    (hsub : is_subtitle_file f = true)
    (hlook : get_file_by_clean_title cat (clean_filename f) = none)
    (hfresh : ∀ r ∈ cat, r.file_id ≠ doc.file_id) :
    process_message cat m now ch
      = (cat ++ [inserted_file_data doc f m now ch], .indexed) := by
  have hany : cat.any (fun r => decide (r.file_id = doc.file_id)) = false := by
    rw [List.any_eq_false]
    intro r hr
    simp [hfresh r hr]
  simp [process_message, hd, hf, hsub, extract_movie_info, hlook, add_file,
    hany, inserted_file_data]

/-- The insert path of `process_message`, stated through the fields of the
inserted record (so that later proofs can rewrite by them instead of
re-evaluating the extraction pipeline). -/
theorem process_message_insert {cat : Catalog} {m : PyMessage} {doc : PyDocument}
    {f : List Char} {now : Nat} {ch : Int}
    (hd : m.document = some doc) (hf : doc.file_name = some f)
    (hsub : is_subtitle_file f = true)
    (hlook : get_file_by_clean_title cat (clean_filename f) = none)
    (hfresh : ∀ r ∈ cat, r.file_id ≠ doc.file_id) :
    ∃ r2, process_message cat m now ch = (cat ++ [r2], .indexed)
      ∧ r2.file_id = doc.file_id ∧ r2.file_name = f
      ∧ r2.file_size = doc.file_size
      ∧ r2.title = clean_filename f
      ∧ r2.clean_title = (clean_filename f).map Char.toLower
      ∧ r2.year = extract_year f ∧ r2.quality = extract_quality f
      ∧ r2.message_id = m.id ∧ r2.channel_id = ch
      ∧ r2.file_type = get_file_extension f
      ∧ r2.added_at = now ∧ r2.downloads = 0
      ∧ r2.last_downloaded = none ∧ r2.updated_at = none := by
  refine ⟨inserted_file_data doc f m now ch,
    process_message_insert_eq hd hf hsub hlook hfresh,
    ?_, ?_, ?_, ?_, ?_, ?_, ?_, ?_, ?_, ?_, ?_, ?_, ?_, ?_⟩
  all_goals simp only [inserted_file_data]

theorem process_message_existing {cat : Catalog} {m : PyMessage}
    {doc : PyDocument} {f : List Char} {now : Nat} {ch : Int} {ex : FileRecord}
    (hd : m.document = some doc) (hf : doc.file_name = some f)
    (hsub : is_subtitle_file f = true)
    (hlook : get_file_by_clean_title cat (clean_filename f) = some ex) :
    process_message cat m now ch
      = if ex.file_size < doc.file_size
        then (update_file cat ex.file_id doc.file_id f doc.file_size now, .updated)
        else (cat, .duplicate) := by
  simp [process_message, hd, hf, hsub, extract_movie_info, hlook]

/-! ## Concrete sample data for witnesses and counterexamples -/

/-- A catalog record as stored by `add_file`, with the given `file_id`,
title/clean title, file size and `added_at` time. -/
def sampleRec (fid ct : String) (size at_ : Nat) : FileRecord :=
  { file_id := fid.data, file_name := ct.data, file_size := size,
    title := ct.data, clean_title := ct.data, year := none, quality := none,
    message_id := 0, channel_id := 0, file_type := "srt".data, caption := none,
    added_at := at_, downloads := 0, last_downloaded := none, updated_at := none }

/-- A document message with the given file id, filename and size. -/
def sampleMsg (fid fname : String) (size : Nat) : PyMessage :=
  { document := some { file_name := some fname.data, file_size := size,
                       file_id := fid.data },
    id := 1, caption := none }

/-- A message that carries no document. -/
def noDocMsg (i : Nat) : PyMessage := { document := none, id := i, caption := none }

/-- A document message whose `file_name` is `None`: processing it raises
inside `is_subtitle_file` (`None.lower()`), which the `except` handler of
`process_message` reports as an `"error"` outcome. -/
def faultyMsg : PyMessage :=
  { document := some { file_name := none, file_size := 0, file_id := "x".data },
    id := 5, caption := none }

/-- A 10-message history whose fifth message fails during processing. -/
def tenMsgs : List PyMessage :=
  [noDocMsg 1, noDocMsg 2, noDocMsg 3, noDocMsg 4, faultyMsg,
   noDocMsg 6, noDocMsg 7, noDocMsg 8, noDocMsg 9, noDocMsg 10]

/-- A catalog with one duplicate clean-title group (`"movie"`, sizes 100 and
200) and one singleton (`"other"`). -/
def sampleCat : Catalog :=
  [sampleRec "a" "movie" 100 1, sampleRec "b" "movie" 200 2,
   sampleRec "c" "other" 50 3]

/-! ## The claims -/

/-- C1: the claim says the key stored for a new record and the key used by
the duplicate lookup are both the lowercase clean title.  The code violates
this: `process_message` stores `clean_title.lower()` (indexer.py line 128)
but passes the unlowered `clean_title` to `get_file_by_clean_title`
(line 105).  Evaluating the code at the failing input: `"Movie.srt"` has
clean title `"Movie"`; the first message stores the key `"movie"`, and a
second message with the same filename (fresh file id) is *inserted again*
(status `indexed`, two records with stored key `"movie"`) instead of
resolving against the existing record. -/
theorem claim_C1_lookup_key_not_lowered :
    clean_filename "Movie.srt".data = "Movie".data
  ∧ (process_message [] (sampleMsg "f1" "Movie.srt" 100) 5 0).1.map (·.clean_title)
      = ["movie".data]
  ∧ (process_message (process_message [] (sampleMsg "f1" "Movie.srt" 100) 5 0).1
        (sampleMsg "f2" "Movie.srt" 100) 6 0).2 = .indexed
  ∧ (process_message (process_message [] (sampleMsg "f1" "Movie.srt" 100) 5 0).1
        (sampleMsg "f2" "Movie.srt" 100) 6 0).1.map (·.clean_title)
      = ["movie".data, "movie".data] := by decide

/-- C2: resolver policy — no record under the looked-up clean title means
insert; a found record with strictly smaller size than the candidate means
update; otherwise skip, reported as a duplicate with the catalog (hence the
existing record) untouched. -/
theorem claim_C2_resolver_policy (cat : Catalog) (m : PyMessage)
    (doc : PyDocument) (f : List Char) (now : Nat) (ch : Int)
    (hd : m.document = some doc) (hf : doc.file_name = some f)
    (hsub : is_subtitle_file f = true) :
    (get_file_by_clean_title cat (clean_filename f) = none →
      (∀ r ∈ cat, r.file_id ≠ doc.file_id) →
      (process_message cat m now ch).2 = .indexed ∧
      ∃ newRec, (process_message cat m now ch).1 = cat ++ [newRec])
  ∧ (∀ ex, get_file_by_clean_title cat (clean_filename f) = some ex →
      ex.file_size < doc.file_size →
      (process_message cat m now ch).2 = .updated)
  ∧ (∀ ex, get_file_by_clean_title cat (clean_filename f) = some ex →
      doc.file_size ≤ ex.file_size →
      (process_message cat m now ch).2 = .duplicate ∧
      (process_message cat m now ch).1 = cat) := by
  refine ⟨?_, ?_, ?_⟩
  · intro hlook hfresh
    obtain ⟨r2, hpm, -⟩ :=
      @process_message_insert cat m doc f now ch hd hf hsub hlook hfresh
    rw [hpm]
    exact ⟨rfl, r2, rfl⟩
  · intro ex hlook hgt
    rw [process_message_existing hd hf hsub hlook, if_pos hgt]
  · intro ex hlook hle
    rw [process_message_existing hd hf hsub hlook, if_neg (by omega)]
    exact ⟨rfl, rfl⟩

theorem claim_C2_resolver_policy_witness :
    ((process_message [] (sampleMsg "f2" "movie.srt" 150) 5 0).2 = .indexed)
  ∧ ((process_message [sampleRec "f1" "movie" 100 1]
        (sampleMsg "f2" "movie.srt" 150) 5 0).2 = .updated)
  ∧ ((process_message [sampleRec "f1" "movie" 100 1]
        (sampleMsg "f2" "movie.srt" 90) 5 0).2 = .duplicate
     ∧ (process_message [sampleRec "f1" "movie" 100 1]
          (sampleMsg "f2" "movie.srt" 90) 5 0).1
        = [sampleRec "f1" "movie" 100 1]) :=
  ⟨((claim_C2_resolver_policy [] (sampleMsg "f2" "movie.srt" 150) _ _ 5 0
      rfl rfl (by decide)).1 (by decide) (by decide)).1,
   (claim_C2_resolver_policy [sampleRec "f1" "movie" 100 1]
      (sampleMsg "f2" "movie.srt" 150) _ _ 5 0 rfl rfl (by decide)).2.1
      (sampleRec "f1" "movie" 100 1) (by decide) (by decide),
   (claim_C2_resolver_policy [sampleRec "f1" "movie" 100 1]
      (sampleMsg "f2" "movie.srt" 90) _ _ 5 0 rfl rfl (by decide)).2.2
      (sampleRec "f1" "movie" 100 1) (by decide) (by decide)⟩

/-- C3: the claim says an update outcome is counted toward the
indexed-files counter.  The code violates this: the history loop matches
only `indexed`, `duplicate` and `skipped`, and its `else` branch
(indexer.py lines 55-56) catches the `"updated"` status, incrementing the
*errors* counter.  Evaluating the code at the failing input (an existing
record of size 100 and a one-message history carrying a larger file of size
200): the message's outcome is `updated`, yet the run ends with
`indexed_files = 0` and `errors = 1`. -/
theorem claim_C3_update_counted_as_error :
    (process_message [sampleRec "f1" "movie" 100 1]
      (sampleMsg "f2" "movie.srt" 200) 5 0).2 = .updated
  ∧ (index_channel_history false [sampleRec "f1" "movie" 100 1]
      (.ok [sampleMsg "f2" "movie.srt" 200]) 5 0).2.2.indexed_files = 0
  ∧ (index_channel_history false [sampleRec "f1" "movie" 100 1]
      (.ok [sampleMsg "f2" "movie.srt" 200]) 5 0).2.2.errors = 1
  ∧ (index_channel_history false [sampleRec "f1" "movie" 100 1]
      (.ok [sampleMsg "f2" "movie.srt" 200]) 5 0).2.2.duplicates = 0
  ∧ (index_channel_history false [sampleRec "f1" "movie" 100 1]
      (.ok [sampleMsg "f2" "movie.srt" 200]) 5 0).2.2.status = .completed := by
  decide

/-- C4: on any catalog whose `file_id`s are pairwise distinct (the store's
unique index), one `clean_database` pass keeps exactly the records whose
`file_id` is that of the Python-`max` best record of their clean-title
group — the best record is a member of its group and no group member has a
strictly greater `(file_size, added_at)` key — and deletes every other
group member, after which no two surviving records share a clean title. -/
theorem claim_C4_cleaner_keeps_best (cat : Catalog)
    (h : (cat.map (·.file_id)).Nodup) :
    (clean_database cat).1 = cat.filter (survives cat)
  ∧ ((clean_database cat).1.map (·.clean_title)).Nodup
  ∧ ∀ r ∈ cat, ∃ b, pyMax (groupFor cat r.clean_title) = some b
      ∧ b ∈ groupFor cat r.clean_title
      ∧ (∀ x ∈ groupFor cat r.clean_title, keyGt x b = false)
      ∧ (survives cat r = true ↔ r.file_id = b.file_id) := by
  refine ⟨clean_database_fst h, clean_database_nodup_ct h, ?_⟩
  intro r hr
  obtain ⟨b, hb⟩ := pyMax_of_mem hr
  refine ⟨b, hb, pyMax_mem hb, pyMax_maximal hb, ?_⟩
  rw [survives, hb]
  simp

theorem claim_C4_cleaner_keeps_best_witness :
    (sampleCat.map (·.file_id)).Nodup
  ∧ (clean_database sampleCat).1 = sampleCat.filter (survives sampleCat)
  ∧ ((clean_database sampleCat).1.map (·.clean_title)).Nodup :=
  ⟨by decide, (claim_C4_cleaner_keeps_best sampleCat (by decide)).1,
   (claim_C4_cleaner_keeps_best sampleCat (by decide)).2.1⟩

/-- C5: cleaner idempotence — after one `clean_database` pass on a catalog
with pairwise-distinct `file_id`s, a second pass removes 0 duplicates and
returns the catalog unchanged; and on any catalog already satisfying the
clean-title uniqueness invariant, `clean_database` has zero effect. -/
theorem claim_C5_cleaner_idempotent (cat : Catalog) :
    ((cat.map (·.file_id)).Nodup →
      clean_database (clean_database cat).1 = ((clean_database cat).1, 0))
  ∧ ((cat.map (·.clean_title)).Nodup → clean_database cat = (cat, 0)) := by
  constructor
  · intro h
    exact clean_database_zero_effect (clean_database_nodup_ct h)
  · exact clean_database_zero_effect

theorem claim_C5_cleaner_idempotent_witness :
    (sampleCat.map (·.file_id)).Nodup
  ∧ clean_database (clean_database sampleCat).1
      = ((clean_database sampleCat).1, 0) :=
  ⟨by decide, (claim_C5_cleaner_idempotent sampleCat).1 (by decide)⟩

/-- C6: partial-failure continuation — every history run over an intact
iteration ends with status `completed` and counts every message (document
or not) in `total_messages`; and a message whose processing yields the
`error` outcome adds exactly 1 to the errors counter, after which the fold
continues with the remaining messages. -/
theorem claim_C6_partial_failure (cat : Catalog) (now : Nat) (ch : Int)
    (msgs : List PyMessage) :
    ((index_channel_history false cat (.ok msgs) now ch).2.2.status = .completed
     ∧ (index_channel_history false cat (.ok msgs) now ch).2.2.total_messages
        = msgs.length)
  ∧ ∀ (cat' : Catalog) (s : RunStats) (m : PyMessage) (d : PyDocument)
      (rest : List PyMessage),
      m.document = some d →
      (process_message cat' m now ch).2 = .error →
      (m :: rest).foldl (scanStep now ch) (cat', s)
        = rest.foldl (scanStep now ch)
            ((process_message cat' m now ch).1,
             { s with total_messages := s.total_messages + 1,
                      errors := s.errors + 1 }) := by
  refine ⟨⟨rfl, ?_⟩, ?_⟩
  · have htot := foldl_scan_total now ch msgs cat initStats
    show (msgs.foldl (scanStep now ch) (cat, initStats)).2.total_messages
        = msgs.length
    rw [htot]
    simp [initStats]
  · intro cat' s m d rest hd he
    rw [List.foldl_cons, scanStep_error now ch cat' s m d hd he]

theorem claim_C6_partial_failure_witness :
    (index_channel_history false [] (.ok tenMsgs) 5 0).2.2.status = .completed
  ∧ (index_channel_history false [] (.ok tenMsgs) 5 0).2.2.total_messages = 10
  ∧ (index_channel_history false [] (.ok tenMsgs) 5 0).2.2.errors = 1
  ∧ (process_message [] faultyMsg 5 0).2 = .error :=
  ⟨(claim_C6_partial_failure [] 5 0 tenMsgs).1.1,
   ((claim_C6_partial_failure [] 5 0 tenMsgs).1.2).trans (by decide),
   by decide, by decide⟩

/-- C7: single-run guard — a start request while the `indexing` flag is set
returns the distinguished already-running result, leaving the flag and
catalog untouched; a run started with the flag clear ends with the flag
cleared again on both the completed path and the channel-iteration-failure
path (which records status `error` and the error message). -/
theorem claim_C7_single_run_guard (cat : Catalog) (iter : ChannelIter)
    (now : Nat) (ch : Int) :
    (index_channel_history true cat iter now ch
       = (true, cat, { initStats with status := .already_running }))
  ∧ (∀ msgs, (index_channel_history false cat (.ok msgs) now ch).1 = false
       ∧ (index_channel_history false cat (.ok msgs) now ch).2.2.status
          = .completed)
  ∧ (∀ msgs emsg,
       (index_channel_history false cat (.failAfter msgs emsg) now ch).1 = false
       ∧ (index_channel_history false cat (.failAfter msgs emsg) now ch).2.2.status
          = .error
       ∧ (index_channel_history false cat (.failAfter msgs emsg) now ch).2.2.error_message
          = some emsg) :=
  ⟨rfl, fun _ => ⟨rfl, rfl⟩, fun _ _ => ⟨rfl, rfl, rfl⟩⟩

/-- C8: update frame condition — on the update path (existing record found,
candidate strictly larger, no unique-index collision for the new file id),
the catalog keeps its shape with exactly the existing record replaced, and
the replacement changes exactly `file_id`, `file_name`, `file_size` and
`updated_at`; every other field is carried over unchanged. -/
theorem claim_C8_update_frame (cat : Catalog) (m : PyMessage)
    (doc : PyDocument) (f : List Char) (now : Nat) (ch : Int) (ex : FileRecord)
    (hd : m.document = some doc) (hf : doc.file_name = some f)
    (hsub : is_subtitle_file f = true)
    (hlook : get_file_by_clean_title cat (clean_filename f) = some ex)
    (hgt : ex.file_size < doc.file_size)
    (hnd : (cat.map (·.file_id)).Nodup)
    (hcol : ∀ r ∈ cat, r.file_id = doc.file_id → r.file_id = ex.file_id) :
    (process_message cat m now ch).2 = .updated
  ∧ ∃ l₁ l₂ r2, cat = l₁ ++ ex :: l₂
      ∧ (process_message cat m now ch).1 = l₁ ++ r2 :: l₂
      ∧ r2.file_id = doc.file_id ∧ r2.file_name = f
      ∧ r2.file_size = doc.file_size ∧ r2.updated_at = some now
      ∧ r2.title = ex.title ∧ r2.clean_title = ex.clean_title
      ∧ r2.year = ex.year ∧ r2.quality = ex.quality
      ∧ r2.message_id = ex.message_id ∧ r2.channel_id = ex.channel_id
      ∧ r2.file_type = ex.file_type ∧ r2.caption = ex.caption
      ∧ r2.added_at = ex.added_at ∧ r2.downloads = ex.downloads
      ∧ r2.last_downloaded = ex.last_downloaded := by
  have hpm := @process_message_existing cat m doc f now ch ex hd hf hsub hlook
  rw [if_pos hgt] at hpm
  have hex_mem : ex ∈ cat := List.mem_of_find?_eq_some hlook
  obtain ⟨l₁, l₂, hcat, hl₁⟩ := mem_decomp_first hnd hex_mem
  have hanyc : cat.any
      (fun r => decide (r.file_id = doc.file_id ∧ r.file_id ≠ ex.file_id))
      = false := by
    rw [List.any_eq_false]
    intro r hr
    simp only [decide_eq_true_eq]
    rintro ⟨h1, h2⟩
    exact h2 (hcol r hr h1)
  refine ⟨by rw [hpm], l₁, l₂,
    { ex with file_id := doc.file_id, file_name := f,
              file_size := doc.file_size, updated_at := some now },
    hcat, ?_, rfl, rfl, rfl, rfl, rfl, rfl, rfl, rfl, rfl, rfl, rfl, rfl,
    rfl, rfl, rfl⟩
  rw [hpm]
  show update_file cat ex.file_id doc.file_id f doc.file_size now = _
  rw [update_file, if_neg (by rw [hanyc]; simp)]
  rw [hcat]
  rw [updateFirst_append (fun x hx => by simp [hl₁ x hx]) (by simp)]

theorem claim_C8_update_frame_witness :
    (process_message [sampleRec "f1" "movie" 100 1]
        (sampleMsg "f2" "movie.srt" 150) 7 0).2 = .updated
  ∧ ∃ l₁ l₂ r2, [sampleRec "f1" "movie" 100 1]
        = l₁ ++ sampleRec "f1" "movie" 100 1 :: l₂
      ∧ (process_message [sampleRec "f1" "movie" 100 1]
          (sampleMsg "f2" "movie.srt" 150) 7 0).1 = l₁ ++ r2 :: l₂
      ∧ r2.file_id = "f2".data ∧ r2.file_name = "movie.srt".data
      ∧ r2.file_size = 150 ∧ r2.updated_at = some 7
      ∧ r2.title = (sampleRec "f1" "movie" 100 1).title
      ∧ r2.clean_title = (sampleRec "f1" "movie" 100 1).clean_title
      ∧ r2.year = (sampleRec "f1" "movie" 100 1).year
      ∧ r2.quality = (sampleRec "f1" "movie" 100 1).quality
      ∧ r2.message_id = (sampleRec "f1" "movie" 100 1).message_id
      ∧ r2.channel_id = (sampleRec "f1" "movie" 100 1).channel_id
      ∧ r2.file_type = (sampleRec "f1" "movie" 100 1).file_type
      ∧ r2.caption = (sampleRec "f1" "movie" 100 1).caption
      ∧ r2.added_at = (sampleRec "f1" "movie" 100 1).added_at
      ∧ r2.downloads = (sampleRec "f1" "movie" 100 1).downloads
      ∧ r2.last_downloaded = (sampleRec "f1" "movie" 100 1).last_downloaded :=
  claim_C8_update_frame [sampleRec "f1" "movie" 100 1]
    (sampleMsg "f2" "movie.srt" 150) _ "movie.srt".data 7 0
    (sampleRec "f1" "movie" 100 1) rfl rfl (by decide) (by decide)
    (by decide) (by decide) (by decide)

/-- C9 (as stated, refuted): the claim says a message whose filename is
entirely noise — empty clean title — is rejected before storage, so no
record with an empty clean title is ever inserted.  The code has no such
check: the filename `"@noise.srt"` cleans to the empty string, passes the
subtitle filter, and `process_message` inserts a record whose stored
`clean_title` is the empty string. -/
theorem claim_C9_empty_title_counterexample :
    clean_filename "@noise.srt".data = []
  ∧ is_subtitle_file "@noise.srt".data = true
  ∧ (process_message [] (sampleMsg "f1" "@noise.srt" 10) 5 0).2 = .indexed
  ∧ (process_message [] (sampleMsg "f1" "@noise.srt" 10) 5 0).1.map
      (·.clean_title) = [[]] := by decide

/-- C9 (amended): the indexing caller performs no empty-title rejection: a
subtitle-named message whose clean title is the empty string proceeds
through the ordinary resolver path, and when the (empty) clean title has no
catalog record and the file id is fresh, a record with an empty-string
clean title is inserted. -/
theorem claim_C9_amended_no_empty_check (cat : Catalog) (m : PyMessage)
    (doc : PyDocument) (f : List Char) (now : Nat) (ch : Int)
    (hd : m.document = some doc) (hf : doc.file_name = some f)
    (hsub : is_subtitle_file f = true)
    (hempty : clean_filename f = [])
    (hlook : get_file_by_clean_title cat [] = none)
    (hfresh : ∀ r ∈ cat, r.file_id ≠ doc.file_id) :
    (process_message cat m now ch).2 = .indexed
  ∧ ∃ r2, (process_message cat m now ch).1 = cat ++ [r2]
      ∧ r2.clean_title = [] := by
  have hlook' : get_file_by_clean_title cat (clean_filename f) = none := by
    rw [hempty]
    exact hlook
  obtain ⟨r2, hpm, -, -, -, -, hct, -⟩ :=
    @process_message_insert cat m doc f now ch hd hf hsub hlook' hfresh
  rw [hpm]
  refine ⟨rfl, r2, rfl, ?_⟩
  rw [hct, hempty]
  rfl

theorem claim_C9_amended_no_empty_check_witness :
    (process_message [] (sampleMsg "f1" "@noise.srt" 10) 5 0).2 = .indexed
  ∧ ∃ r2, (process_message [] (sampleMsg "f1" "@noise.srt" 10) 5 0).1
        = [] ++ [r2]
      ∧ r2.clean_title = [] :=
  claim_C9_amended_no_empty_check [] (sampleMsg "f1" "@noise.srt" 10) _
    "@noise.srt".data 5 0 rfl rfl (by decide) (by decide) (by decide)
    (by simp)

/-- C10 (as stated, refuted): the claim says every filename ending in
`.vtt` keeps the `.vtt` suffix in its stored clean title.  That fails when
an earlier noise-removal pattern consumes the suffix: `"https://a.vtt"` is
accepted by the subtitle filter, but the URL pattern deletes the whole
name, so the stored clean title is the empty string and retains nothing. -/
theorem claim_C10_vtt_counterexample :
    is_subtitle_file "https://a.vtt".data = true
  ∧ clean_filename "https://a.vtt".data = []
  ∧ (process_message [] (sampleMsg "u1" "https://a.vtt" 10) 5 0).1.map
      (·.clean_title) = [[]]
  ∧ endsWithL ([] : List Char) ".vtt".data = false := by decide

/-- C10 (amended): for every filename ending in `.vtt` (any case) the
subtitle filter accepts the file and the stored `file_type` falls back to
`"srt"`; the extension-stripping step removes only `.srt/.ass/.sub/.ssa`,
so whenever the noise-removal steps leave the `.vtt` suffix in place (i.e.
it is not consumed by an earlier pattern such as a URL), the clean title —
and hence the stored lowercase clean title of a freshly inserted record —
retains the `.vtt` suffix. -/
theorem claim_C10_amended_vtt_suffix (f : List Char)
    (h : endsWithL (f.map Char.toLower) ".vtt".data = true) :
    is_subtitle_file f = true
  ∧ get_file_extension f = "srt".data
  ∧ (endsWithL ((cleanNoExt f).map Char.toLower) ".vtt".data = true →
      clean_filename f = cleanNoExt f
      ∧ endsWithL ((clean_filename f).map Char.toLower) ".vtt".data = true)
  ∧ ∀ (cat : Catalog) (m : PyMessage) (doc : PyDocument) (now : Nat) (ch : Int),
      m.document = some doc → doc.file_name = some f →
      endsWithL ((cleanNoExt f).map Char.toLower) ".vtt".data = true →
      get_file_by_clean_title cat (clean_filename f) = none →
      (∀ r ∈ cat, r.file_id ≠ doc.file_id) →
      ∃ r2, (process_message cat m now ch).1 = cat ++ [r2]
        ∧ r2.file_type = "srt".data
        ∧ r2.clean_title = (clean_filename f).map Char.toLower
        ∧ endsWithL r2.clean_title ".vtt".data = true := by
  refine ⟨is_subtitle_file_vtt h, get_file_extension_vtt h, ?_, ?_⟩
  · intro hmid
    have heq : clean_filename f = cleanNoExt f := by
      rw [clean_filename_eq_stripSubExt, stripSubExt_vtt hmid]
    refine ⟨heq, ?_⟩
    rw [heq]
    exact hmid
  · intro cat m doc now ch hd hf hmid hlook hfresh
    have heq : clean_filename f = cleanNoExt f := by
      rw [clean_filename_eq_stripSubExt, stripSubExt_vtt hmid]
    obtain ⟨r2, hpm, -, -, -, -, hct, -, -, -, -, hft, -⟩ :=
      @process_message_insert cat m doc f now ch hd hf
        (is_subtitle_file_vtt h) hlook hfresh
    refine ⟨r2, ?_, ?_, hct, ?_⟩
    · rw [hpm]
    · rw [hft]
      exact get_file_extension_vtt h
    · rw [hct, heq]
      exact hmid

theorem claim_C10_amended_vtt_suffix_witness :
    is_subtitle_file "movie [x].vtt".data = true
  ∧ get_file_extension "movie [x].vtt".data = "srt".data
  ∧ clean_filename "movie [x].vtt".data = cleanNoExt "movie [x].vtt".data
  ∧ endsWithL ((clean_filename "movie [x].vtt".data).map Char.toLower)
      ".vtt".data = true :=
  ⟨(claim_C10_amended_vtt_suffix "movie [x].vtt".data (by decide)).1,
   (claim_C10_amended_vtt_suffix "movie [x].vtt".data (by decide)).2.1,
   ((claim_C10_amended_vtt_suffix "movie [x].vtt".data (by decide)).2.2.1
      (by decide)).1,
   ((claim_C10_amended_vtt_suffix "movie [x].vtt".data (by decide)).2.2.1
      (by decide)).2⟩

end SubBot
